import Mathlib

/-!
Verification of the url2anki extraction-and-pairing pipeline
(`internal/url2anki/url2anki.go`).

Texts are modelled as `List Char`.  The HTTP fetch, the goquery HTML parse
and the two selector evaluations are external collaborators (net/http,
goquery); their outcomes are the fields of `ScrapeEnv`, and everything the
repository's own code does with those outcomes is modelled exactly.
-/

namespace Url2anki

/-- Go's `unicode.IsSpace`, decided on the code point: the Latin-1 fast path
(`\t`, `\n`, `\v`, `\f`, `\r`, space, U+0085, U+00A0) plus the White_Space
code points above Latin-1 (U+1680, U+2000..U+200A, U+2028, U+2029, U+202F,
U+205F, U+3000). -/
def goIsSpace (c : Char) : Bool :=
  decide (c.toNat = 9 ∨ c.toNat = 10 ∨ c.toNat = 11 ∨ c.toNat = 12 ∨
    c.toNat = 13 ∨ c.toNat = 32 ∨ c.toNat = 0x85 ∨ c.toNat = 0xa0 ∨
    c.toNat = 0x1680 ∨ (0x2000 ≤ c.toNat ∧ c.toNat ≤ 0x200a) ∨
    c.toNat = 0x2028 ∨ c.toNat = 0x2029 ∨ c.toNat = 0x202f ∨
    c.toNat = 0x205f ∨ c.toNat = 0x3000)

/-- `strings.ReplaceAll(s, "\n", "")` at this fixed one-character pattern:
every occurrence of the substring `"\n"` is removed, scanning left to
right. -/
def removeAllLF : List Char → List Char
  | [] => []
  | c :: rest => if c = '\n' then removeAllLF rest else c :: removeAllLF rest

/-- `strings.ReplaceAll(s, "\r\n", "")` at this fixed two-character pattern:
whenever `"\r\n"` occurs at the scan position the two characters are removed
and scanning resumes after them; otherwise the scan advances one
character. -/
def removeAllCRLF : List Char → List Char
  | [] => []
  | c :: rest =>
    if c = '\r' then
      match rest with
      | d :: rest2 =>
        if d = '\n' then removeAllCRLF rest2 else c :: removeAllCRLF (d :: rest2)
      | [] => [c]
    else c :: removeAllCRLF rest

/-- Leading-whitespace trim, as `strings.TrimSpace` performs on the left:
drop characters satisfying `unicode.IsSpace` until the first that does
not. -/
def trimLeftSpace : List Char → List Char
  | [] => []
  | c :: rest => if goIsSpace c then trimLeftSpace rest else c :: rest

/-- Trailing-whitespace trim (the right half of `strings.TrimSpace`). -/
def trimRightSpace (s : List Char) : List Char :=
  (trimLeftSpace s.reverse).reverse

/-- `strings.TrimSpace`: remove leading and trailing `unicode.IsSpace`
characters. -/
def trimSpace (s : List Char) : List Char :=
  trimRightSpace (trimLeftSpace s)

/-- The per-field cleanup of `scrapeFlashcards` (url2anki.go lines 113-121),
applied identically to question and answer text:
`strings.ReplaceAll(t, "\n", "")`, then `strings.ReplaceAll(_, "\r\n", "")`,
then `strings.TrimSpace`. -/
def normalizeText (s : List Char) : List Char :=
  trimSpace (removeAllCRLF (removeAllLF s))

/-- A single Anki flashcard (struct `Flashcard`, fields in declaration
order `question`, `answer`). -/
structure Flashcard where
  question : List Char
  answer : List Char
deriving DecidableEq, Repr

/-- The typed failure cases of `scrapeFlashcards`, one constructor per
error exit of the Go function, in source order.  The Go function returns
plain `error` values; each constructor records the data in scope at its
return site:
* `transport`: the error returned by `http.Get`, forwarded unchanged;
* `badStatus`: `errors.New("failed to fetch the URL")`, raised when
  `res.StatusCode != 200` — the constructor carries that status code;
* `parseFailure`: the error returned by `goquery.NewDocumentFromReader`,
  forwarded unchanged;
* `countMismatch`: `errors.New("the number of questions and answers do not
  match")`, raised when `questions.Length() != answers.Length()` — the
  constructor carries the two compared counts. -/
inductive ScrapeError where
  | transport (msg : List Char)
  | badStatus (code : Nat)
  | parseFailure (msg : List Char)
  | countMismatch (questionCount answerCount : Nat)
deriving DecidableEq, Repr

/-- The `error.Error()` string of the Go error each `ScrapeError`
constructor stands for. -/
def ScrapeError.message : ScrapeError → List Char
  | .transport m => m
  | .badStatus _ =>
    ['f', 'a', 'i', 'l', 'e', 'd', ' ', 't', 'o', ' ', 'f', 'e', 't', 'c',
     'h', ' ', 't', 'h', 'e', ' ', 'U', 'R', 'L']
  | .parseFailure m => m
  | .countMismatch _ _ =>
    ['t', 'h', 'e', ' ', 'n', 'u', 'm', 'b', 'e', 'r', ' ', 'o', 'f', ' ',
     'q', 'u', 'e', 's', 't', 'i', 'o', 'n', 's', ' ', 'a', 'n', 'd', ' ',
     'a', 'n', 's', 'w', 'e', 'r', 's', ' ', 'd', 'o', ' ', 'n', 'o', 't',
     ' ', 'm', 'a', 't', 'c', 'h']

/-- The outcomes of the external collaborators consulted by
`scrapeFlashcards`, in the order the Go function consults them:
`http.Get` (transport error or a response with a status code),
`goquery.NewDocumentFromReader`, and the two `doc.Find` selector
evaluations, whose matched nodes are represented by their `Text()`
contents in document order. -/
structure ScrapeEnv where
  transportError : Option (List Char)
  statusCode : Nat
  parseError : Option (List Char)
  questionTexts : List (List Char)
  answerTexts : List (List Char)
deriving DecidableEq, Repr

/-- The pairing loop of `scrapeFlashcards`: `questions.Each` visits the
question matches in document order with their index `i`, and each is paired
with `answers.Eq(i)`; an out-of-range `Eq(i)` is an empty selection whose
`Text()` is `""` (unreachable once the counts are equal). -/
def pairCards (qs as : List (List Char)) : List Flashcard :=
  (List.range qs.length).map fun i =>
    { question := normalizeText (qs.getD i [])
      answer := normalizeText (as.getD i []) }

/-- `scrapeFlashcards` (url2anki.go lines 83-132): propagate the `http.Get`
error, fail on any status other than 200, propagate the goquery parse
error, fail when the two selector match counts differ, and otherwise pair
the matches index by index. -/
def scrapeFlashcards (env : ScrapeEnv) : Except ScrapeError (List Flashcard) :=
  match env.transportError with
  | some e => .error (.transport e)
  | none =>
    if env.statusCode ≠ 200 then
      .error (.badStatus env.statusCode)
    else
      match env.parseError with
      | some e => .error (.parseFailure e)
      | none =>
        if env.questionTexts.length ≠ env.answerTexts.length then
          .error (.countMismatch env.questionTexts.length env.answerTexts.length)
        else
          .ok (pairCards env.questionTexts env.answerTexts)

/-- The outcome of the interactive preview gate in `Run`. -/
inductive PreviewOutcome where
  | confirmed
  | aborted
deriving DecidableEq, Repr

/-- `strings.ToLower`, restricted to the simple case fold (sufficient to
decide equality with `"y"`: the only token Go's `ToLower` maps to `"y"` is
`"Y"` or `"y"` itself, which the per-character fold also maps). -/
def goToLower (s : List Char) : List Char :=
  s.map Char.toLower

/-- The preview gate of `Run` (url2anki.go lines 47-61).  `fmt.Scanln`
either fails (`none`: empty line or other read failure — Go prints a
message and returns without exporting) or yields one whitespace-delimited
token (`some tok`); the pipeline continues only when
`strings.ToLower(response) == "y"`. -/
def previewDecision (input : Option (List Char)) : PreviewOutcome :=
  match input with
  | none => .aborted
  | some response =>
    if goToLower response = ['y'] then .confirmed else .aborted

/-- One file written by an export function: target path, the full byte
content, the permission bits passed to the operating system before the
umask is applied, and whether the call creates the file or truncates an
existing one (both Go calls use `O_CREATE|O_TRUNC`). -/
structure FileWrite where
  path : List Char
  content : List Char
  perm : Nat
  truncates : Bool
deriving DecidableEq, Repr

/-- Permission bits that restrict access to the owner: every group bit and
every other bit is clear. -/
def ownerOnlyPerm (perm : Nat) : Prop :=
  perm % 8 = 0 ∧ (perm / 8) % 8 = 0

instance (perm : Nat) : Decidable (ownerOnlyPerm perm) := by
  unfold ownerOnlyPerm; infer_instance

/-! ### JSON serialization (`encoding/json.MarshalIndent(flashcards, "", "  ")`) -/

/-- Go's lowercase hex digits (`"0123456789abcdef"[k]`). -/
def hexDigit (k : Nat) : Char :=
  match k with
  | 0 => '0' | 1 => '1' | 2 => '2' | 3 => '3' | 4 => '4'
  | 5 => '5' | 6 => '6' | 7 => '7' | 8 => '8' | 9 => '9'
  | 10 => 'a' | 11 => 'b' | 12 => 'c' | 13 => 'd' | 14 => 'e' | 15 => 'f'
  | _ => '0'

/-- One character of a Go JSON string, as `encoding/json` emits it with the
default HTML escaping: `"`, `\`, `\n`, `\r`, `\t` get short escapes; other
control characters below U+0020 get a backslash-u escape with two lowercase
hex digits; the HTML characters less-than, greater-than and ampersand and
the separators U+2028 and U+2029 get their backslash-u escapes; everything
else passes through unchanged. -/
def escapeJSONChar (c : Char) : List Char :=
  if c = '"' then ['\\', '"']
  else if c = '\\' then ['\\', '\\']
  else if c = '\n' then ['\\', 'n']
  else if c = '\r' then ['\\', 'r']
  else if c = '\t' then ['\\', 't']
  else if c = '<' then ['\\', 'u', '0', '0', '3', 'c']
  else if c = '>' then ['\\', 'u', '0', '0', '3', 'e']
  else if c = '&' then ['\\', 'u', '0', '0', '2', '6']
  else if c.toNat < 0x20 then
    ['\\', 'u', '0', '0', hexDigit (c.toNat / 16), hexDigit (c.toNat % 16)]
  else if c.toNat = 0x2028 then ['\\', 'u', '2', '0', '2', '8']
  else if c.toNat = 0x2029 then ['\\', 'u', '2', '0', '2', '9']
  else [c]

/-- A JSON string literal: opening quote, escaped characters, closing
quote. -/
def jsonQuote (s : List Char) : List Char :=
  '"' :: (s.map escapeJSONChar).flatten ++ ['"']

/-- One element of the marshalled array: the two-field object for one card,
fields in struct declaration order (`question` then `answer`), laid out by
`MarshalIndent` with empty prefix and two-space indent. -/
def jsonCardObject (fc : Flashcard) : List Char :=
  [' ', ' ', '\x7b', '\n', ' ', ' ', ' ', ' '] ++
    jsonQuote ['q', 'u', 'e', 's', 't', 'i', 'o', 'n'] ++ [':', ' '] ++
    jsonQuote fc.question ++
    [',', '\n', ' ', ' ', ' ', ' '] ++
    jsonQuote ['a', 'n', 's', 'w', 'e', 'r'] ++ [':', ' '] ++
    jsonQuote fc.answer ++
    ['\n', ' ', ' ', '\x7d']

/-- `json.MarshalIndent(flashcards, "", "  ")`.  `scrapeFlashcards` builds
its slice by `append` starting from the nil `var flashcards []Flashcard`,
so the slice is nil exactly when it is empty, and `encoding/json` marshals
a nil slice as the literal `null`; a non-empty slice becomes the indented
array of card objects. -/
def jsonMarshalIndent : List Flashcard → List Char
  | [] => ['n', 'u', 'l', 'l']
  | cards =>
    ['[', '\n'] ++ List.intercalate [',', '\n'] (cards.map jsonCardObject) ++
      ['\n', ']']

/-- `exportFlashcardsToJSONFile` (url2anki.go lines 144-150): marshal with
two-space indent and `os.WriteFile(filename, data, 0600)`, which creates or
truncates the target with owner-only permission bits. -/
def exportFlashcardsToJSONFile (cards : List Flashcard) (filename : List Char) :
    FileWrite :=
  { path := filename
    content := jsonMarshalIndent cards
    perm := 0o600
    truncates := true }

/-! ### CSV serialization (`encoding/csv.Writer` with default settings) -/

/-- `encoding/csv.Writer.fieldNeedsQuotes` with the default comma and
`UseCRLF=false`: an empty field is unquoted; the PostgreSQL end-of-data
marker `\.` is quoted; a field containing the comma, a double quote, `\r`
or `\n` is quoted; otherwise a field is quoted exactly when its first
character is `unicode.IsSpace`. -/
def fieldNeedsQuotes (f : List Char) : Bool :=
  if f = [] then false
  else if f = ['\\', '.'] then true
  else if f.any (fun c => c = ',' || c = '"' || c = '\r' || c = '\n') then true
  else goIsSpace (f.headD ' ')

/-- The body of a quoted CSV field: each `"` doubled, every other
character (including `\r` and `\n`, which `csv.Writer` leaves unchanged
when `UseCRLF` is false) copied verbatim. -/
def escQuoted (f : List Char) : List Char :=
  (f.map fun c => if c = '"' then ['"', '"'] else [c]).flatten

/-- One CSV field as `csv.Writer.Write` emits it: quoted with doubled
quotes when `fieldNeedsQuotes`, verbatim otherwise. -/
def encodeCSVField (f : List Char) : List Char :=
  if fieldNeedsQuotes f then '"' :: escQuoted f ++ ['"'] else f

/-- One CSV record: the encoded fields joined by commas, terminated by the
default `\n` line ending. -/
def encodeCSVRecord (fs : List (List Char)) : List Char :=
  List.intercalate [','] (fs.map encodeCSVField) ++ ['\n']

/-- The header record `{"Question", "Answer"}` written first by
`exportFlashcardsToCSVFile`. -/
def csvHeader : List (List Char) :=
  [['Q', 'u', 'e', 's', 't', 'i', 'o', 'n'], ['A', 'n', 's', 'w', 'e', 'r']]

/-- The full byte content `exportFlashcardsToCSVFile` writes: the header
record, then one record per flashcard in sequence order. -/
def csvFileContent (cards : List Flashcard) : List Char :=
  encodeCSVRecord csvHeader ++
    (cards.map fun fc => encodeCSVRecord [fc.question, fc.answer]).flatten

/-- `exportFlashcardsToCSVFile` (url2anki.go lines 153-177): the target is
opened with `os.Create(filename)`, which creates or truncates it with
permission bits 0666 (before the umask); the `csv.Writer` then writes the
header row and one row per card. -/
def exportFlashcardsToCSVFile (cards : List Flashcard) (filename : List Char) :
    FileWrite :=
  { path := filename
    content := csvFileContent cards
    perm := 0o666
    truncates := true }

/-! ### The export dispatch and the pipeline (`Run`) -/

/-- The characters of the literal `".json"`. -/
def jsonSuffixChars : List Char := ['.', 'j', 's', 'o', 'n']

/-- The characters of the literal `".csv"`. -/
def csvSuffixChars : List Char := ['.', 'c', 's', 'v']

/-- The export stage of `Run` (url2anki.go lines 64-81): two independent,
non-exclusive checks, each guarded by `outputFile != ""` and a
`strings.HasSuffix` test; each check that passes performs its export, and a
path passing neither check performs no export and raises no error. -/
def exportStage (cards : List Flashcard) (outputFile : List Char) :
    List FileWrite :=
  (if outputFile ≠ [] ∧ jsonSuffixChars.isSuffixOf outputFile then
    [exportFlashcardsToJSONFile cards outputFile]
  else []) ++
  (if outputFile ≠ [] ∧ csvSuffixChars.isSuffixOf outputFile then
    [exportFlashcardsToCSVFile cards outputFile]
  else [])

/-- `Run` after flag parsing, as the list of files it writes: a scrape
error stops the pipeline with nothing written; with preview enabled an
aborted confirmation stops it with nothing written; otherwise the export
stage runs. -/
def runModel (env : ScrapeEnv) (preview : Bool) (input : Option (List Char))
    (outputFile : List Char) : List FileWrite :=
  match scrapeFlashcards env with
  | .error _ => []
  | .ok cards =>
    if preview ∧ previewDecision input = .aborted then []
    else exportStage cards outputFile

/-! ### Normalization lemmas -/

theorem not_mem_removeAllLF : ∀ s : List Char, '\n' ∉ removeAllLF s
  | [] => by simp [removeAllLF]
  | c :: rest => by
    by_cases h : c = '\n'
    · simpa [removeAllLF, h] using not_mem_removeAllLF rest
    · simp only [removeAllLF, if_neg h, List.mem_cons, not_or]
      exact ⟨fun hc => h hc.symm, not_mem_removeAllLF rest⟩

theorem removeAllCRLF_eq_of_not_lf : ∀ s : List Char, '\n' ∉ s → removeAllCRLF s = s
  | [], _ => rfl
  | c :: rest, h => by
    have hrest : '\n' ∉ rest := fun hm => h (List.mem_cons_of_mem _ hm)
    cases rest with
    | nil =>
      by_cases hr : c = '\r' <;> simp [removeAllCRLF, hr]
    | cons d rest2 =>
      have hd : d ≠ '\n' := by
        intro hdn
        exact hrest (hdn ▸ List.mem_cons_self d rest2)
      by_cases hr : c = '\r' <;>
        simp [removeAllCRLF, hr, hd, removeAllCRLF_eq_of_not_lf (d :: rest2) hrest]

theorem mem_trimLeftSpace {c : Char} : ∀ {s : List Char}, c ∈ trimLeftSpace s → c ∈ s
  | [], h => h
  | a :: rest, h => by
    by_cases ha : goIsSpace a = true
    · simp only [trimLeftSpace, if_pos ha] at h
      exact List.mem_cons_of_mem _ (mem_trimLeftSpace h)
    · simpa [trimLeftSpace, ha] using h

theorem trimLeftSpace_head? {c : Char} :
    ∀ {s : List Char}, (trimLeftSpace s).head? = some c → goIsSpace c = false
  | [], h => by simp [trimLeftSpace] at h
  | a :: rest, h => by
    by_cases ha : goIsSpace a = true
    · exact trimLeftSpace_head? (by simpa [trimLeftSpace, ha] using h)
    · have hac : a = c := by simpa [trimLeftSpace, ha] using h
      simp only [← hac]
      simpa using ha

theorem trimLeftSpace_suffix : ∀ s : List Char, trimLeftSpace s <:+ s
  | [] => List.suffix_refl []
  | a :: rest => by
    by_cases ha : goIsSpace a = true
    · simpa [trimLeftSpace, ha] using
        (trimLeftSpace_suffix rest).trans (List.suffix_cons a rest)
    · simp [trimLeftSpace, ha]

theorem suffix_getLast?_eq {α : Type} {l₁ l₂ : List α} (h : l₁ <:+ l₂)
    (hne : l₁ ≠ []) : l₂.getLast? = l₁.getLast? := by
  obtain ⟨t, rfl⟩ := h
  rw [List.getLast?_append]
  cases hl : l₁.getLast? with
  | none => exact absurd (by simpa using hl) hne
  | some x => rfl

theorem mem_trimSpace {c : Char} {s : List Char} (h : c ∈ trimSpace s) : c ∈ s := by
  have h1 : c ∈ trimLeftSpace (trimLeftSpace s).reverse := by
    simpa [trimSpace, trimRightSpace] using h
  have h2 : c ∈ (trimLeftSpace s).reverse := mem_trimLeftSpace h1
  exact mem_trimLeftSpace (by simpa using h2)

theorem trimSpace_getLast? {c : Char} {s : List Char}
    (h : (trimSpace s).getLast? = some c) : goIsSpace c = false := by
  have : (trimLeftSpace (trimLeftSpace s).reverse).head? = some c := by
    simpa [trimSpace, trimRightSpace] using h
  exact trimLeftSpace_head? this

theorem trimSpace_head? {c : Char} {s : List Char}
    (h : (trimSpace s).head? = some c) : goIsSpace c = false := by
  have h1 : (trimLeftSpace (trimLeftSpace s).reverse).getLast? = some c := by
    simpa [trimSpace, trimRightSpace] using h
  have hne : trimLeftSpace (trimLeftSpace s).reverse ≠ [] := by
    intro he
    rw [he] at h1
    simp at h1
  have h2 := suffix_getLast?_eq (trimLeftSpace_suffix (trimLeftSpace s).reverse) hne
  have h3 : (trimLeftSpace s).head? = some c := by
    have h4 := h2.trans h1
    simpa using h4
  exact trimLeftSpace_head? h3

/-- The normal form the pairing stage guarantees for every emitted field:
no `\n` character, hence no `\r\n` two-character sequence, and no leading
or trailing `unicode.IsSpace` character. -/
def fieldNormal (f : List Char) : Prop :=
  '\n' ∉ f ∧ ¬ ['\r', '\n'] <:+: f ∧
  (∀ c, f.head? = some c → goIsSpace c = false) ∧
  (∀ c, f.getLast? = some c → goIsSpace c = false)

theorem normalizeText_not_lf (s : List Char) : '\n' ∉ normalizeText s := by
  intro hm
  have h1 : '\n' ∈ removeAllCRLF (removeAllLF s) := mem_trimSpace hm
  rw [removeAllCRLF_eq_of_not_lf _ (not_mem_removeAllLF s)] at h1
  exact not_mem_removeAllLF s h1

theorem normalizeText_fieldNormal (s : List Char) : fieldNormal (normalizeText s) := by
  refine ⟨normalizeText_not_lf s, ?_, fun c hc => trimSpace_head? hc,
    fun c hc => trimSpace_getLast? hc⟩
  intro hinf
  exact normalizeText_not_lf s (hinf.sublist.subset (by simp))

/-- The flashcard sequence the specification describes for equal-length
match lists: the two text lists zipped index by index, each text
normalized.  Compared below with the code's `pairCards`. -/
def specPairedCards (qs as : List (List Char)) : List Flashcard :=
  List.zipWith (fun q a => Flashcard.mk (normalizeText q) (normalizeText a)) qs as

theorem specPairedCards_cons (q a : List Char) (qs as : List (List Char)) :
    specPairedCards (q :: qs) (a :: as) =
      Flashcard.mk (normalizeText q) (normalizeText a) :: specPairedCards qs as :=
  rfl

theorem pairCards_eq_spec : ∀ (qs as : List (List Char)),
    qs.length = as.length → pairCards qs as = specPairedCards qs as
  | [], [], _ => rfl
  | [], _ :: _, h => by simp at h
  | _ :: _, [], h => by simp at h
  | q :: qs, a :: as, h => by
    have h' : qs.length = as.length := by simpa using h
    have ih := pairCards_eq_spec qs as h'
    rw [specPairedCards_cons, ← ih]
    simp only [pairCards, List.length_cons, List.range_succ_eq_map, List.map_cons,
      List.map_map, List.getD_cons_zero]
    refine congrArg (List.cons _) ?_
    apply List.map_congr_left
    intro i _
    simp [Function.comp, List.getD_cons_succ]

theorem mem_specPairedCards : ∀ (qs as : List (List Char)) (fc : Flashcard),
    fc ∈ specPairedCards qs as →
    ∃ q a, fc = Flashcard.mk (normalizeText q) (normalizeText a)
  | [], _, fc, h => by simp [specPairedCards] at h
  | _ :: _, [], fc, h => by simp [specPairedCards] at h
  | q :: qs, a :: as, fc, h => by
    simp only [specPairedCards, List.zipWith_cons_cons, List.mem_cons] at h
    rcases h with h | h
    · exact ⟨q, a, h⟩
    · exact mem_specPairedCards qs as fc h

/-! ### Sample inputs used by the witnesses -/

/-- Successful fetch, two question matches, one answer match (the spec's
count-mismatch scenario). -/
def mismatchEnv : ScrapeEnv :=
  { transportError := none
    statusCode := 200
    parseError := none
    questionTexts := [['Q', '1'], ['Q', '2']]
    answerTexts := [['A', '1']] }

/-- Successful fetch with the spec's two-card scenario texts. -/
def pairedEnv : ScrapeEnv :=
  { transportError := none
    statusCode := 200
    parseError := none
    questionTexts :=
      [['Q', 'u', 'e', 's', 't', 'i', 'o', 'n', ' ', '1'],
       ['\n', ' ', 'Q', 'u', 'e', 's', 't', 'i', 'o', 'n', ' ', '2', ' ']]
    answerTexts :=
      [['A', 'n', 's', 'w', 'e', 'r', ' ', '1'],
       [' ', 'A', 'n', 's', 'w', 'e', 'r', ' ', '2', '\n']] }

/-- A fetch that answered HTTP 404. -/
def badStatusEnv : ScrapeEnv :=
  { transportError := none
    statusCode := 404
    parseError := none
    questionTexts := []
    answerTexts := [] }

/-! ### Claims about the scrape stage -/

/-- Claim C1: whenever the two selector match lists differ in length
(zero versus non-zero included), `scrapeFlashcards` fails with the
count-mismatch error carrying the two counts, and no flashcard list —
in particular no partial pairing of the matched prefix — is produced. -/
theorem scrapeFlashcards_count_mismatch (env : ScrapeEnv)
    (ht : env.transportError = none) (hs : env.statusCode = 200)
    (hp : env.parseError = none)
    (hne : env.questionTexts.length ≠ env.answerTexts.length) :
    scrapeFlashcards env =
      .error (.countMismatch env.questionTexts.length env.answerTexts.length) ∧
    ∀ cards : List Flashcard, scrapeFlashcards env ≠ .ok cards := by
  have h1 : scrapeFlashcards env =
      .error (.countMismatch env.questionTexts.length env.answerTexts.length) := by
    simp [scrapeFlashcards, ht, hs, hp, hne]
  refine ⟨h1, fun cards hc => ?_⟩
  rw [h1] at hc
  exact Except.noConfusion hc

/-- Witness for C1 at the spec's scenario: two question matches, one
answer match, giving the mismatch error with counts 2 and 1. -/
theorem scrapeFlashcards_count_mismatch_witness :
    (mismatchEnv.transportError = none ∧ mismatchEnv.statusCode = 200 ∧
      mismatchEnv.parseError = none ∧
      mismatchEnv.questionTexts.length ≠ mismatchEnv.answerTexts.length) ∧
    scrapeFlashcards mismatchEnv = .error (.countMismatch 2 1) :=
  ⟨⟨rfl, rfl, rfl, by decide⟩,
    (scrapeFlashcards_count_mismatch mismatchEnv rfl rfl rfl (by decide)).1⟩

/-- Claim C2: with equally many question and answer matches,
`scrapeFlashcards` succeeds with exactly one card per index in document
order, card `i` pairing question text `i` with answer text `i`, each field
normalized (`\n` stripped, then `\r\n`, then trimmed), so that no emitted
field contains `\n` or the sequence `\r\n` or any leading or trailing
whitespace. -/
theorem scrapeFlashcards_pairs_normalized (env : ScrapeEnv)
    (ht : env.transportError = none) (hs : env.statusCode = 200)
    (hp : env.parseError = none)
    (hlen : env.questionTexts.length = env.answerTexts.length) :
    scrapeFlashcards env =
      .ok (specPairedCards env.questionTexts env.answerTexts) ∧
    (specPairedCards env.questionTexts env.answerTexts).length =
      env.questionTexts.length ∧
    ∀ fc ∈ specPairedCards env.questionTexts env.answerTexts,
      fieldNormal fc.question ∧ fieldNormal fc.answer := by
  refine ⟨?_, ?_, ?_⟩
  · have : scrapeFlashcards env =
        .ok (pairCards env.questionTexts env.answerTexts) := by
      simp [scrapeFlashcards, ht, hs, hp, hlen]
    rw [this, pairCards_eq_spec _ _ hlen]
  · simp [specPairedCards, hlen]
  · intro fc hfc
    obtain ⟨q, a, rfl⟩ := mem_specPairedCards _ _ fc hfc
    exact ⟨normalizeText_fieldNormal q, normalizeText_fieldNormal a⟩

/-- Witness for C2 at the spec's two-card scenario (with stray whitespace
and newlines in the node texts). -/
theorem scrapeFlashcards_pairs_normalized_witness :
    (pairedEnv.transportError = none ∧ pairedEnv.statusCode = 200 ∧
      pairedEnv.parseError = none ∧
      pairedEnv.questionTexts.length = pairedEnv.answerTexts.length) ∧
    (scrapeFlashcards pairedEnv =
        .ok (specPairedCards pairedEnv.questionTexts pairedEnv.answerTexts) ∧
      (specPairedCards pairedEnv.questionTexts pairedEnv.answerTexts).length =
        pairedEnv.questionTexts.length ∧
      ∀ fc ∈ specPairedCards pairedEnv.questionTexts pairedEnv.answerTexts,
        fieldNormal fc.question ∧ fieldNormal fc.answer) :=
  ⟨⟨rfl, rfl, rfl, by decide⟩,
    scrapeFlashcards_pairs_normalized pairedEnv rfl rfl rfl (by decide)⟩

/-- Claim C7: any non-200 status makes `scrapeFlashcards` fail with the
bad-status error carrying the status code — uniformly, with no
status-specific branching — and the pipeline then pairs nothing and
exports nothing. -/
theorem scrapeFlashcards_bad_status (env : ScrapeEnv) (preview : Bool)
    (input : Option (List Char)) (outputFile : List Char)
    (ht : env.transportError = none) (hs : env.statusCode ≠ 200) :
    scrapeFlashcards env = .error (.badStatus env.statusCode) ∧
    (∀ cards : List Flashcard, scrapeFlashcards env ≠ .ok cards) ∧
    runModel env preview input outputFile = [] := by
  have h1 : scrapeFlashcards env = .error (.badStatus env.statusCode) := by
    simp [scrapeFlashcards, ht, hs]
  refine ⟨h1, fun cards hc => ?_, ?_⟩
  · rw [h1] at hc
    exact Except.noConfusion hc
  · simp [runModel, h1]

/-- Witness for C7 at the spec's scenario: a fetch that answered 404 with
preview off and a `.json` output path; nothing is exported. -/
theorem scrapeFlashcards_bad_status_witness :
    (badStatusEnv.transportError = none ∧ badStatusEnv.statusCode ≠ 200) ∧
    (scrapeFlashcards badStatusEnv = .error (.badStatus 404) ∧
      runModel badStatusEnv false none
        ['o', 'u', 't', '.', 'j', 's', 'o', 'n'] = []) :=
  ⟨⟨rfl, by decide⟩,
    (scrapeFlashcards_bad_status badStatusEnv false none
        ['o', 'u', 't', '.', 'j', 's', 'o', 'n'] rfl (by decide)).1,
    (scrapeFlashcards_bad_status badStatusEnv false none
        ['o', 'u', 't', '.', 'j', 's', 'o', 'n'] rfl (by decide)).2.2⟩

/-- Claim C9: normalization removes every `\n` first, so the subsequent
`\r\n` removal can never find a match and interior carriage returns
survive into the emitted fields: on the text `a\r\nb` the normalized
result is `a\rb`, still containing a bare `\r` between `a` and `b`, and in
general the `\r\n` pass is the identity on anything the `\n` pass has
produced. -/
theorem normalize_leaves_bare_cr :
    normalizeText ['a', '\r', '\n', 'b'] = ['a', '\r', 'b'] ∧
    '\r' ∈ normalizeText ['a', '\r', '\n', 'b'] ∧
    ∀ s : List Char, removeAllCRLF (removeAllLF s) = removeAllLF s :=
  ⟨by decide, by decide,
    fun s => removeAllCRLF_eq_of_not_lf _ (not_mem_removeAllLF s)⟩

/-! ### Claims about the preview gate and the export dispatch -/

/-- Successful fetch with zero matches on both selectors. -/
def okEnv : ScrapeEnv :=
  { transportError := none
    statusCode := 200
    parseError := none
    questionTexts := []
    answerTexts := [] }

/-- Claim C8: with preview enabled the pipeline exports exactly when the
case-folded comparison of the read token against `y` succeeds; any other
input — `n`, empty input (a `Scanln` failure), or any read failure —
aborts, after which nothing is written and no error is raised. -/
theorem preview_gate (env : ScrapeEnv) (cards : List Flashcard)
    (input : Option (List Char)) (outputFile : List Char)
    (hok : scrapeFlashcards env = .ok cards) :
    (previewDecision input = .confirmed ↔
      ∃ tok, input = some tok ∧ goToLower tok = ['y']) ∧
    (previewDecision input = .confirmed →
      runModel env true input outputFile = exportStage cards outputFile) ∧
    (previewDecision input = .aborted →
      runModel env true input outputFile = []) := by
  refine ⟨?_, ?_, ?_⟩
  · cases input with
    | none => simp [previewDecision]
    | some tok =>
      by_cases h : goToLower tok = ['y'] <;> simp [previewDecision, h]
  · intro h
    simp [runModel, hok, h]
  · intro h
    simp [runModel, hok, h]

/-- Witness for C8 at the spec's scenario: the operator answers `n` with a
`.csv` output path configured; nothing is written. -/
theorem preview_gate_witness :
    (scrapeFlashcards okEnv = .ok []) ∧
    previewDecision (some ['n']) = .aborted ∧
    runModel okEnv true (some ['n']) ['o', '.', 'c', 's', 'v'] = [] :=
  ⟨rfl, by decide,
    (preview_gate okEnv [] (some ['n']) ['o', '.', 'c', 's', 'v'] rfl).2.2
      (by decide)⟩

theorem ne_nil_of_suffix {l out : List Char} (h : l <:+ out) (hl : l ≠ []) :
    out ≠ [] := by
  intro ho
  rw [ho] at h
  exact hl (List.suffix_nil.mp h)

theorem not_csv_of_json_suffix {out : List Char} (h : jsonSuffixChars <:+ out) :
    ¬ csvSuffixChars <:+ out := by
  intro hc
  have h1 := suffix_getLast?_eq h (by decide)
  have h2 := suffix_getLast?_eq hc (by decide)
  rw [h1] at h2
  exact absurd h2 (by decide)

/-- Claim C3: the export stage dispatches purely on the filename suffix —
a `.json` suffix produces exactly the JSON write, a `.csv` suffix exactly
the CSV write, and a path with neither suffix produces no write and no
error; the two checks are independent and non-exclusive. -/
theorem exportStage_dispatch (cards : List Flashcard) (outputFile : List Char) :
    (jsonSuffixChars.isSuffixOf outputFile = true →
      exportStage cards outputFile =
        [exportFlashcardsToJSONFile cards outputFile]) ∧
    (csvSuffixChars.isSuffixOf outputFile = true →
      exportStage cards outputFile =
        [exportFlashcardsToCSVFile cards outputFile]) ∧
    (jsonSuffixChars.isSuffixOf outputFile = false →
      csvSuffixChars.isSuffixOf outputFile = false →
      exportStage cards outputFile = []) := by
  refine ⟨?_, ?_, ?_⟩
  · intro hj
    have hjs : jsonSuffixChars <:+ outputFile := List.isSuffixOf_iff_suffix.mp hj
    have hne : outputFile ≠ [] := ne_nil_of_suffix hjs (by decide)
    have hcsv : csvSuffixChars.isSuffixOf outputFile = false := by
      cases hcv : csvSuffixChars.isSuffixOf outputFile with
      | false => rfl
      | true =>
        exact absurd (List.isSuffixOf_iff_suffix.mp hcv)
          (not_csv_of_json_suffix hjs)
    simp [exportStage, hj, hne, hcsv]
  · intro hc
    have hcs : csvSuffixChars <:+ outputFile := List.isSuffixOf_iff_suffix.mp hc
    have hne : outputFile ≠ [] := ne_nil_of_suffix hcs (by decide)
    have hjson : jsonSuffixChars.isSuffixOf outputFile = false := by
      cases hjv : jsonSuffixChars.isSuffixOf outputFile with
      | false => rfl
      | true =>
        exact absurd hcs
          (not_csv_of_json_suffix (List.isSuffixOf_iff_suffix.mp hjv))
    simp [exportStage, hc, hne, hjson]
  · intro hjf hcf
    simp [exportStage, hjf, hcf]

/-- Witness for C3 at three concrete paths: `a.json`, `a.csv` and the
no-op path `a.txt`. -/
theorem exportStage_dispatch_witness :
    (jsonSuffixChars.isSuffixOf ['a', '.', 'j', 's', 'o', 'n'] = true ∧
      exportStage [] ['a', '.', 'j', 's', 'o', 'n'] =
        [exportFlashcardsToJSONFile [] ['a', '.', 'j', 's', 'o', 'n']]) ∧
    (csvSuffixChars.isSuffixOf ['a', '.', 'c', 's', 'v'] = true ∧
      exportStage [] ['a', '.', 'c', 's', 'v'] =
        [exportFlashcardsToCSVFile [] ['a', '.', 'c', 's', 'v']]) ∧
    exportStage [] ['a', '.', 't', 'x', 't'] = [] :=
  ⟨⟨by decide, (exportStage_dispatch [] _).1 (by decide)⟩,
    ⟨by decide, (exportStage_dispatch [] _).2.1 (by decide)⟩,
    (exportStage_dispatch [] _).2.2 (by decide) (by decide)⟩

/-- Claim C6 counterexample: the CSV export opens its target through
`os.Create`, whose permission bits 0666 are not owner-only and do not
mirror the JSON export's 0600 — refuting the claim at the concrete
sequence `[]` and path `a.csv`. -/
theorem csv_perm_not_owner_only :
    ¬ (ownerOnlyPerm (exportFlashcardsToCSVFile [] ['a', '.', 'c', 's', 'v']).perm ∧
        (exportFlashcardsToCSVFile [] ['a', '.', 'c', 's', 'v']).perm =
          (exportFlashcardsToJSONFile [] ['a', '.', 'c', 's', 'v']).perm) := by
  decide

/-- Claim C6 as amended: both exports create or truncate their target, but
only the JSON export restricts permissions to the owner (0600); the CSV
export passes the default 0666 (further restricted only by the process
umask), which is not owner-only. -/
theorem export_file_permissions (cards : List Flashcard) (filename : List Char) :
    (exportFlashcardsToCSVFile cards filename).perm = 0o666 ∧
    ¬ ownerOnlyPerm (exportFlashcardsToCSVFile cards filename).perm ∧
    (exportFlashcardsToCSVFile cards filename).truncates = true ∧
    (exportFlashcardsToJSONFile cards filename).perm = 0o600 ∧
    ownerOnlyPerm (exportFlashcardsToJSONFile cards filename).perm ∧
    (exportFlashcardsToJSONFile cards filename).truncates = true :=
  ⟨rfl, show ¬ ownerOnlyPerm 0o666 by decide, rfl, rfl,
    show ownerOnlyPerm 0o600 by decide, rfl⟩

/-! ### A JSON reader for the exported card schema

`exportFlashcardsToJSONFile` writes either `null` or an array of two-field
objects.  The reader below parses that JSON grammar — insignificant
whitespace anywhere between tokens, full string escape syntax including
`\uXXXX` — into a card list, so that the round-trip theorem for claim C4
speaks about genuine re-parsing of the written bytes. -/

/-- JSON insignificant whitespace. -/
def jsonIsWs (c : Char) : Bool :=
  c = ' ' || c = '\n' || c = '\t' || c = '\r'

/-- Drop insignificant whitespace before the next token. -/
def skipWs : List Char → List Char
  | c :: cs => if jsonIsWs c then skipWs cs else c :: cs
  | [] => []

/-- Demand the token character `c` next (after whitespace). -/
def jsonExpect (c : Char) (s : List Char) : Option (List Char) :=
  match skipWs s with
  | d :: t => if d = c then some t else none
  | [] => none

/-- The value of one hex digit, upper or lower case. -/
def hexVal (c : Char) : Option Nat :=
  if 48 ≤ c.toNat ∧ c.toNat ≤ 57 then some (c.toNat - 48)
  else if 97 ≤ c.toNat ∧ c.toNat ≤ 102 then some (c.toNat - 87)
  else if 65 ≤ c.toNat ∧ c.toNat ≤ 70 then some (c.toNat - 55)
  else none

/-- The character denoted by a single-character JSON escape. -/
def escapeCode (e : Char) : Option Char :=
  if e = '"' then some '"'
  else if e = '\\' then some '\\'
  else if e = '/' then some '/'
  else if e = 'n' then some '\n'
  else if e = 'r' then some '\r'
  else if e = 't' then some '\t'
  else if e = 'b' then some (Char.ofNat 8)
  else if e = 'f' then some (Char.ofNat 12)
  else none

/-- The body of a JSON string after its opening quote: plain characters and
escapes accumulate (reversed) in `acc` until the closing quote; the parsed
text and the remaining input are returned. -/
def jsonStringBody (acc : List Char) : List Char → Option (List Char × List Char)
  | '"' :: rest => some (acc.reverse, rest)
  | '\\' :: 'u' :: h1 :: h2 :: h3 :: h4 :: rest =>
    match hexVal h1, hexVal h2, hexVal h3, hexVal h4 with
    | some v1, some v2, some v3, some v4 =>
      let n := ((v1 * 16 + v2) * 16 + v3) * 16 + v4
      if n.isValidChar then jsonStringBody (Char.ofNat n :: acc) rest else none
    | _, _, _, _ => none
  | '\\' :: e :: rest =>
    match escapeCode e with
    | some d => jsonStringBody (d :: acc) rest
    | none => none
  | c :: rest => jsonStringBody (c :: acc) rest
  | [] => none

/-- A JSON string token: whitespace, opening quote, body. -/
def jsonParseString (s : List Char) : Option (List Char × List Char) :=
  match skipWs s with
  | '"' :: rest => jsonStringBody [] rest
  | _ => none

/-- One object of the exported schema: braces around a `question` string
field and an `answer` string field, in the order the exporter emits
them. -/
def jsonParseCard (s : List Char) : Option (Flashcard × List Char) := do
  let s1 ← jsonExpect '\x7b' s
  let (k1, s2) ← jsonParseString s1
  if k1 = ['q', 'u', 'e', 's', 't', 'i', 'o', 'n'] then
    let s3 ← jsonExpect ':' s2
    let (q, s4) ← jsonParseString s3
    let s5 ← jsonExpect ',' s4
    let (k2, s6) ← jsonParseString s5
    if k2 = ['a', 'n', 's', 'w', 'e', 'r'] then
      let s7 ← jsonExpect ':' s6
      let (a, s8) ← jsonParseString s7
      let s9 ← jsonExpect '\x7d' s8
      some (⟨q, a⟩, s9)
    else none
  else none

/-! ### JSON round-trip lemmas -/

theorem skipWs_cons_ws {d : Char} (h : jsonIsWs d = true) (t : List Char) :
    skipWs (d :: t) = skipWs t := by
  simp [skipWs, h]

theorem skipWs_cons_not {d : Char} (h : jsonIsWs d = false) (t : List Char) :
    skipWs (d :: t) = d :: t := by
  simp [skipWs, h]

theorem jsonExpect_cons_ws (c : Char) {d : Char} (h : jsonIsWs d = true)
    (t : List Char) : jsonExpect c (d :: t) = jsonExpect c t := by
  simp [jsonExpect, skipWs_cons_ws h]

theorem jsonExpect_hit {c : Char} (h : jsonIsWs c = false) (t : List Char) :
    jsonExpect c (c :: t) = some t := by
  simp [jsonExpect, skipWs_cons_not h]

theorem jsonParseString_cons_ws {d : Char} (h : jsonIsWs d = true)
    (t : List Char) : jsonParseString (d :: t) = jsonParseString t := by
  simp [jsonParseString, skipWs_cons_ws h]

theorem hexVal_hexDigit (k : Nat) (h : k < 16) : hexVal (hexDigit k) = some k := by
  interval_cases k <;> decide

theorem jsonStringBody_plain (c : Char) (acc rest : List Char) (hq : c ≠ '"')
    (hb : c ≠ '\\') :
    jsonStringBody acc (c :: rest) = jsonStringBody (c :: acc) rest := by
  rw [jsonStringBody.eq_def]
  simp [hq, hb]

theorem jsonStringBody_escape (c : Char) (acc rest : List Char) :
    jsonStringBody acc (escapeJSONChar c ++ rest) = jsonStringBody (c :: acc) rest := by
  by_cases h1 : c = '"'
  · subst h1; simp [escapeJSONChar, jsonStringBody, escapeCode]
  by_cases h2 : c = '\\'
  · subst h2; simp [escapeJSONChar, jsonStringBody, escapeCode]
  by_cases h3 : c = '\n'
  · subst h3; simp [escapeJSONChar, jsonStringBody, escapeCode]
  by_cases h4 : c = '\r'
  · subst h4; simp [escapeJSONChar, jsonStringBody, escapeCode]
  by_cases h5 : c = '\t'
  · subst h5; simp [escapeJSONChar, jsonStringBody, escapeCode]
  by_cases h6 : c = '<'
  · subst h6
    simp only [escapeJSONChar]
    norm_num [jsonStringBody, show hexVal '0' = some 0 from by decide,
      show hexVal '3' = some 3 from by decide,
      show hexVal 'c' = some 12 from by decide,
      show Nat.isValidChar 60 from by decide,
      show Char.ofNat 60 = '<' from by decide]
  by_cases h7 : c = '>'
  · subst h7
    simp only [escapeJSONChar]
    norm_num [jsonStringBody, show hexVal '0' = some 0 from by decide,
      show hexVal '3' = some 3 from by decide,
      show hexVal 'e' = some 14 from by decide,
      show Nat.isValidChar 62 from by decide,
      show Char.ofNat 62 = '>' from by decide]
  by_cases h8 : c = '&'
  · subst h8
    simp only [escapeJSONChar]
    norm_num [jsonStringBody, show hexVal '0' = some 0 from by decide,
      show hexVal '2' = some 2 from by decide,
      show hexVal '6' = some 6 from by decide,
      show Nat.isValidChar 38 from by decide,
      show Char.ofNat 38 = '&' from by decide]
  by_cases h9 : c.toNat < 0x20
  · have hdiv : c.toNat / 16 < 16 := by omega
    have hmod : c.toNat % 16 < 16 := Nat.mod_lt _ (by omega)
    have hval : Nat.isValidChar c.toNat := Or.inl (by omega)
    have harith : ((0 * 16 + 0) * 16 + c.toNat / 16) * 16 + c.toNat % 16 = c.toNat := by
      omega
    simp only [escapeJSONChar, if_neg h1, if_neg h2, if_neg h3, if_neg h4,
      if_neg h5, if_neg h6, if_neg h7, if_neg h8, if_pos h9, List.cons_append,
      List.nil_append]
    rw [jsonStringBody.eq_def]
    simp only [hexVal_hexDigit _ hdiv, hexVal_hexDigit _ hmod,
      show hexVal '0' = some 0 from by decide, harith]
    simp [hval, Char.ofNat_toNat]
  by_cases h10 : c.toNat = 0x2028
  · have hc : Char.ofNat 8232 = c := by rw [← h10, Char.ofNat_toNat]
    simp only [escapeJSONChar, if_neg h1, if_neg h2, if_neg h3, if_neg h4,
      if_neg h5, if_neg h6, if_neg h7, if_neg h8, if_neg h9, if_pos h10,
      List.cons_append, List.nil_append]
    rw [jsonStringBody.eq_def]
    norm_num [show hexVal '2' = some 2 from by decide,
      show hexVal '0' = some 0 from by decide,
      show hexVal '8' = some 8 from by decide,
      show Nat.isValidChar 8232 from by decide, hc]
  by_cases h11 : c.toNat = 0x2029
  · have hc : Char.ofNat 8233 = c := by rw [← h11, Char.ofNat_toNat]
    simp only [escapeJSONChar, if_neg h1, if_neg h2, if_neg h3, if_neg h4,
      if_neg h5, if_neg h6, if_neg h7, if_neg h8, if_neg h9, if_neg h10,
      if_pos h11, List.cons_append, List.nil_append]
    rw [jsonStringBody.eq_def]
    norm_num [show hexVal '2' = some 2 from by decide,
      show hexVal '0' = some 0 from by decide,
      show hexVal '9' = some 9 from by decide,
      show Nat.isValidChar 8233 from by decide, hc]
  · simp only [escapeJSONChar, if_neg h1, if_neg h2, if_neg h3, if_neg h4,
      if_neg h5, if_neg h6, if_neg h7, if_neg h8, if_neg h9, if_neg h10,
      if_neg h11, List.cons_append, List.nil_append]
    exact jsonStringBody_plain c acc rest h1 h2

theorem jsonStringBody_flatten : ∀ (cs acc rest : List Char),
    jsonStringBody acc ((cs.map escapeJSONChar).flatten ++ '"' :: rest) =
      some (acc.reverse ++ cs, rest)
  | [], acc, rest => by simp [jsonStringBody]
  | c :: cs, acc, rest => by
    rw [List.map_cons, List.flatten_cons, List.append_assoc, jsonStringBody_escape,
      jsonStringBody_flatten cs]
    simp

theorem jsonParseString_quote_head (t : List Char) :
    jsonParseString ('"' :: t) = jsonStringBody [] t :=
  rfl

theorem jsonParseString_round (k rest : List Char) :
    jsonParseString (jsonQuote k ++ rest) = some (k, rest) := by
  have h : jsonQuote k ++ rest =
      '"' :: ((k.map escapeJSONChar).flatten ++ '"' :: rest) := by
    simp [jsonQuote]
  rw [h, jsonParseString_quote_head, jsonStringBody_flatten]
  simp

theorem jsonParseCard_cons_ws {d : Char} (h : jsonIsWs d = true) (t : List Char) :
    jsonParseCard (d :: t) = jsonParseCard t := by
  simp only [jsonParseCard, jsonExpect_cons_ws _ h]

theorem jsonParseCard_round (fc : Flashcard) (rest : List Char) :
    jsonParseCard (jsonCardObject fc ++ rest) = some (fc, rest) := by
  have e1 : jsonCardObject fc ++ rest =
      ' ' :: ' ' :: '\x7b' :: '\n' :: ' ' :: ' ' :: ' ' :: ' ' ::
        (jsonQuote ['q', 'u', 'e', 's', 't', 'i', 'o', 'n'] ++ (':' :: ' ' ::
          (jsonQuote fc.question ++ (',' :: '\n' :: ' ' :: ' ' :: ' ' :: ' ' ::
            (jsonQuote ['a', 'n', 's', 'w', 'e', 'r'] ++ (':' :: ' ' ::
              (jsonQuote fc.answer ++
                ('\n' :: ' ' :: ' ' :: '\x7d' :: rest)))))))) := by
    simp [jsonCardObject]
  rw [e1]
  simp [jsonParseCard, jsonExpect_cons_ws, jsonExpect_hit, jsonParseString_cons_ws,
    jsonParseString_round, jsonIsWs, Option.bind]

/-- One loop step of the array reader: `fuel` bounds the number of objects
(the caller passes the input length, which always suffices). -/
def jsonParseItems (fuel : Nat) (acc : List Flashcard) (s : List Char) :
    Option (List Flashcard) :=
  match fuel with
  | 0 => none
  | fuel + 1 =>
    match jsonParseCard s with
    | none => none
    | some (fc, rest) =>
      match skipWs rest with
      | ',' :: rest2 => jsonParseItems fuel (fc :: acc) rest2
      | ']' :: rest2 => if skipWs rest2 = [] then some (fc :: acc).reverse else none
      | _ => none

/-- Parse a whole exported document — the grammar
`exportFlashcardsToJSONFile` emits: the literal `null` (zero cards) or a
non-empty array of card objects, with nothing but whitespace allowed after
the closing token. -/
def jsonParseCards (s : List Char) : Option (List Flashcard) :=
  match skipWs s with
  | 'n' :: 'u' :: 'l' :: 'l' :: rest => if skipWs rest = [] then some [] else none
  | '[' :: rest => jsonParseItems (s.length + 1) [] rest
  | _ => none

theorem intercalate_one (sep x : List Char) : List.intercalate sep [x] = x := by
  simp [List.intercalate]

theorem intercalate_two (sep x y : List Char) (l : List (List Char)) :
    List.intercalate sep (x :: y :: l) = x ++ sep ++ List.intercalate sep (y :: l) := by
  simp [List.intercalate, List.intersperse]

theorem jsonParseItems_round : ∀ (cards : List Flashcard) (fuel : Nat)
    (acc : List Flashcard), cards ≠ [] → cards.length < fuel →
    jsonParseItems fuel acc
      ('\n' :: (List.intercalate [',', '\n'] (cards.map jsonCardObject) ++ ['\n', ']'])) =
      some (acc.reverse ++ cards)
  | [], _, _, hne, _ => absurd rfl hne
  | fc :: cards', fuel + 1, acc, _, hf => by
    cases cards' with
    | nil =>
      rw [List.map_cons, List.map_nil, intercalate_one, jsonParseItems,
        jsonParseCard_cons_ws (by decide), jsonParseCard_round]
      simp [skipWs, jsonIsWs]
    | cons fc2 cards'' =>
      have hne' : fc2 :: cards'' ≠ [] := by simp
      have hf' : (fc2 :: cards'').length < fuel := by
        simpa using Nat.lt_of_succ_lt_succ hf
      have ih := jsonParseItems_round (fc2 :: cards'') fuel (fc :: acc) hne' hf'
      simp only [List.map_cons] at ih ⊢
      rw [intercalate_two, jsonParseItems, jsonParseCard_cons_ws (by decide)]
      have e2 : jsonCardObject fc ++ [',', '\n'] ++
          List.intercalate [',', '\n']
            (jsonCardObject fc2 :: List.map jsonCardObject cards'') ++ ['\n', ']'] =
          jsonCardObject fc ++ (',' :: '\n' ::
            (List.intercalate [',', '\n']
              (jsonCardObject fc2 :: List.map jsonCardObject cards'') ++
                ['\n', ']'])) := by
        simp
      rw [e2, jsonParseCard_round]
      simp [skipWs, jsonIsWs, ih]

theorem one_le_length_jsonCardObject (fc : Flashcard) :
    1 ≤ (jsonCardObject fc).length := by
  simp [jsonCardObject]

theorem length_le_intercalate_objs : ∀ cards : List Flashcard,
    cards.length ≤ (List.intercalate [',', '\n'] (cards.map jsonCardObject)).length
  | [] => by simp [List.intercalate]
  | [fc] => by
    rw [List.map_cons, List.map_nil, intercalate_one]
    exact one_le_length_jsonCardObject fc
  | fc :: fc2 :: cards'' => by
    have ih := length_le_intercalate_objs (fc2 :: cards'')
    simp only [List.map_cons] at ih ⊢
    rw [intercalate_two]
    simp only [List.length_append, List.length_cons]
    have h1 := one_le_length_jsonCardObject fc
    simp only [List.length_cons] at ih
    omega

theorem jsonParseCards_bracket (t : List Char) :
    jsonParseCards ('[' :: t) = jsonParseItems (('[' :: t).length + 1) [] t :=
  rfl

/-- Claim C4: exporting any flashcard sequence with
`exportFlashcardsToJSONFile` and re-parsing the written bytes as JSON
recovers exactly the same cards, field for field, in the same order; the
written form is the two-space-indented array of two-field objects
(`question` before `answer`) produced by `MarshalIndent`. -/
theorem json_export_roundTrip (cards : List Flashcard) (filename : List Char) :
    jsonParseCards (exportFlashcardsToJSONFile cards filename).content = some cards := by
  cases cards with
  | nil => rfl
  | cons fc cards' =>
    show jsonParseCards (jsonMarshalIndent (fc :: cards')) = some (fc :: cards')
    have hmarshal : jsonMarshalIndent (fc :: cards') =
        '[' :: '\n' ::
          (List.intercalate [',', '\n'] ((fc :: cards').map jsonCardObject) ++
            ['\n', ']']) := by
      simp [jsonMarshalIndent]
    have hfuel : (fc :: cards').length <
        ('[' :: '\n' ::
          (List.intercalate [',', '\n'] ((fc :: cards').map jsonCardObject) ++
            ['\n', ']'])).length + 1 := by
      have h1 := length_le_intercalate_objs (fc :: cards')
      simp only [List.length_cons, List.length_append]
      simp only [List.length_cons] at h1
      omega
    rw [hmarshal, jsonParseCards_bracket, jsonParseItems_round _ _ _ (by simp) hfuel]
    simp

/-- Claim C10: when both selectors match zero nodes `scrapeFlashcards`
succeeds with the empty (nil) slice, and the JSON export of that empty
sequence writes the literal `null` — not the empty array `[]` — while
re-parsing that output still yields zero cards. -/
theorem empty_scrape_json_null (env : ScrapeEnv) (filename : List Char)
    (ht : env.transportError = none) (hs : env.statusCode = 200)
    (hp : env.parseError = none) (hq : env.questionTexts = [])
    (ha : env.answerTexts = []) :
    scrapeFlashcards env = .ok [] ∧
    (exportFlashcardsToJSONFile [] filename).content = ['n', 'u', 'l', 'l'] ∧
    (exportFlashcardsToJSONFile [] filename).content ≠ ['[', ']'] ∧
    jsonParseCards (exportFlashcardsToJSONFile [] filename).content = some [] := by
  refine ⟨?_, rfl, ?_, rfl⟩
  · simp [scrapeFlashcards, ht, hs, hp, hq, ha, pairCards]
  · intro hcontra
    exact absurd hcontra (show (['n', 'u', 'l', 'l'] : List Char) ≠ ['[', ']'] from by decide)

/-- Witness for C10 at the zero-match environment and the path `o.json`. -/
theorem empty_scrape_json_null_witness :
    (okEnv.transportError = none ∧ okEnv.statusCode = 200 ∧
      okEnv.parseError = none ∧ okEnv.questionTexts = [] ∧
      okEnv.answerTexts = []) ∧
    (scrapeFlashcards okEnv = .ok [] ∧
      (exportFlashcardsToJSONFile [] ['o', '.', 'j', 's', 'o', 'n']).content =
        ['n', 'u', 'l', 'l'] ∧
      (exportFlashcardsToJSONFile [] ['o', '.', 'j', 's', 'o', 'n']).content ≠
        ['[', ']'] ∧
      jsonParseCards
        (exportFlashcardsToJSONFile [] ['o', '.', 'j', 's', 'o', 'n']).content =
        some []) :=
  ⟨⟨rfl, rfl, rfl, rfl, rfl⟩,
    empty_scrape_json_null okEnv ['o', '.', 'j', 's', 'o', 'n'] rfl rfl rfl rfl rfl⟩

/-! ### An RFC-4180 CSV reader

A character-driven reader for comma-separated records: quoted fields with
doubled quotes (and embedded commas, quotes, `\r`, `\n`), unquoted fields
otherwise, records ended by `\n` or `\r\n`.  It parses everything
`exportFlashcardsToCSVFile` emits, so the round-trip theorem for claim C5
speaks about genuine re-parsing of the written file. -/

mutual

/-- At the start of a field.  `rec` holds the fields of the current record
(reversed); `acc` the completed records (reversed). -/
def csvStart (rec : List (List Char)) (acc : List (List (List Char))) :
    List Char → Option (List (List (List Char)))
  | [] => if rec = [] then some acc.reverse else none
  | c :: t =>
    if c = '"' then csvQuoted [] rec acc t
    else if c = ',' then csvStart ([] :: rec) acc t
    else if c = '\n' then csvStart [] ((([] : List Char) :: rec).reverse :: acc) t
    else if c = '\r' then
      match t with
      | '\n' :: t2 => csvStart [] ((([] : List Char) :: rec).reverse :: acc) t2
      | u => csvUnquoted [c] rec acc u
    else csvUnquoted [c] rec acc t
termination_by s => s.length

/-- Inside an unquoted field; `fld` holds its characters reversed. -/
def csvUnquoted (fld : List Char) (rec : List (List Char))
    (acc : List (List (List Char))) :
    List Char → Option (List (List (List Char)))
  | [] => none
  | c :: t =>
    if c = '"' then none
    else if c = ',' then csvStart (fld.reverse :: rec) acc t
    else if c = '\n' then csvStart [] ((fld.reverse :: rec).reverse :: acc) t
    else if c = '\r' then
      match t with
      | '\n' :: t2 => csvStart [] ((fld.reverse :: rec).reverse :: acc) t2
      | u => csvUnquoted (c :: fld) rec acc u
    else csvUnquoted (c :: fld) rec acc t
termination_by s => s.length

/-- Inside a quoted field; a doubled quote is a literal quote, a single
quote closes the field. -/
def csvQuoted (fld : List Char) (rec : List (List Char))
    (acc : List (List (List Char))) :
    List Char → Option (List (List (List Char)))
  | [] => none
  | c :: t =>
    if c = '"' then
      match t with
      | '"' :: t2 => csvQuoted ('"' :: fld) rec acc t2
      | u => csvFieldDone fld.reverse rec acc u
    else csvQuoted (c :: fld) rec acc t
termination_by s => s.length

/-- After a closing quote: only a separator, a record end or nothing may
follow. -/
def csvFieldDone (fld : List Char) (rec : List (List Char))
    (acc : List (List (List Char))) :
    List Char → Option (List (List (List Char)))
  | [] => none
  | c :: t =>
    if c = ',' then csvStart (fld :: rec) acc t
    else if c = '\n' then csvStart [] ((fld :: rec).reverse :: acc) t
    else if c = '\r' then
      match t with
      | '\n' :: t2 => csvStart [] ((fld :: rec).reverse :: acc) t2
      | _ => none
    else none
termination_by s => s.length

end

/-- Parse a whole CSV file into its records. -/
def csvParse (s : List Char) : Option (List (List (List Char))) :=
  csvStart [] [] s

/-! ### CSV step lemmas -/

theorem csvStart_nil (rec : List (List Char)) (acc : List (List (List Char))) :
    csvStart rec acc [] = if rec = [] then some acc.reverse else none := by
  rw [csvStart.eq_def]

theorem csvStart_quote (rec : List (List Char)) (acc : List (List (List Char)))
    (t : List Char) : csvStart rec acc ('"' :: t) = csvQuoted [] rec acc t := by
  rw [csvStart.eq_def]
  simp

theorem csvStart_comma (rec : List (List Char)) (acc : List (List (List Char)))
    (t : List Char) : csvStart rec acc (',' :: t) = csvStart ([] :: rec) acc t := by
  rw [csvStart.eq_def]
  simp

theorem csvStart_lf (rec : List (List Char)) (acc : List (List (List Char)))
    (t : List Char) :
    csvStart rec acc ('\n' :: t) =
      csvStart [] ((([] : List Char) :: rec).reverse :: acc) t := by
  rw [csvStart.eq_def]
  simp

theorem csvStart_plain {c : Char} (h1 : c ≠ '"') (h2 : c ≠ ',') (h3 : c ≠ '\n')
    (h4 : c ≠ '\r') (rec : List (List Char)) (acc : List (List (List Char)))
    (t : List Char) : csvStart rec acc (c :: t) = csvUnquoted [c] rec acc t := by
  rw [csvStart.eq_def]
  simp [h1, h2, h3, h4]

theorem csvUnquoted_comma (fld : List Char) (rec : List (List Char))
    (acc : List (List (List Char))) (t : List Char) :
    csvUnquoted fld rec acc (',' :: t) = csvStart (fld.reverse :: rec) acc t := by
  rw [csvUnquoted.eq_def]
  simp

theorem csvUnquoted_lf (fld : List Char) (rec : List (List Char))
    (acc : List (List (List Char))) (t : List Char) :
    csvUnquoted fld rec acc ('\n' :: t) =
      csvStart [] ((fld.reverse :: rec).reverse :: acc) t := by
  rw [csvUnquoted.eq_def]
  simp

theorem csvUnquoted_plain {c : Char} (h1 : c ≠ '"') (h2 : c ≠ ',') (h3 : c ≠ '\n')
    (h4 : c ≠ '\r') (fld : List Char) (rec : List (List Char))
    (acc : List (List (List Char))) (t : List Char) :
    csvUnquoted fld rec acc (c :: t) = csvUnquoted (c :: fld) rec acc t := by
  rw [csvUnquoted.eq_def]
  simp [h1, h2, h3, h4]

theorem csvQuoted_pair (fld : List Char) (rec : List (List Char))
    (acc : List (List (List Char))) (t : List Char) :
    csvQuoted fld rec acc ('"' :: '"' :: t) = csvQuoted ('"' :: fld) rec acc t := by
  rw [csvQuoted.eq_def]
  simp

theorem csvQuoted_close {t : List Char} (h : t.head? ≠ some '"')
    (fld : List Char) (rec : List (List Char)) (acc : List (List (List Char))) :
    csvQuoted fld rec acc ('"' :: t) = csvFieldDone fld.reverse rec acc t := by
  rw [csvQuoted.eq_def]
  cases t with
  | nil => simp
  | cons d t' =>
    have hd : d ≠ '"' := by
      intro hdq
      exact h (by simp [hdq])
    simp [hd]

theorem csvQuoted_plain {c : Char} (h : c ≠ '"') (fld : List Char)
    (rec : List (List Char)) (acc : List (List (List Char))) (t : List Char) :
    csvQuoted fld rec acc (c :: t) = csvQuoted (c :: fld) rec acc t := by
  rw [csvQuoted.eq_def]
  simp [h]

theorem csvFieldDone_comma (fld : List Char) (rec : List (List Char))
    (acc : List (List (List Char))) (t : List Char) :
    csvFieldDone fld rec acc (',' :: t) = csvStart (fld :: rec) acc t := by
  rw [csvFieldDone.eq_def]
  simp

theorem csvFieldDone_lf (fld : List Char) (rec : List (List Char))
    (acc : List (List (List Char))) (t : List Char) :
    csvFieldDone fld rec acc ('\n' :: t) =
      csvStart [] ((fld :: rec).reverse :: acc) t := by
  rw [csvFieldDone.eq_def]
  simp

/-! ### CSV round-trip lemmas -/

theorem csvQuoted_esc : ∀ (f fld : List Char) (rec : List (List Char))
    (acc : List (List (List Char))) (r : List Char),
    csvQuoted fld rec acc (escQuoted f ++ r) = csvQuoted (f.reverse ++ fld) rec acc r
  | [], fld, rec, acc, r => by simp [escQuoted]
  | c :: f', fld, rec, acc, r => by
    by_cases hc : c = '"'
    · subst hc
      have e : escQuoted ('"' :: f') ++ r = '"' :: '"' :: (escQuoted f' ++ r) := by
        simp [escQuoted]
      rw [e, csvQuoted_pair, csvQuoted_esc f']
      simp
    · have e : escQuoted (c :: f') ++ r = c :: (escQuoted f' ++ r) := by
        simp [escQuoted, hc]
      rw [e, csvQuoted_plain hc, csvQuoted_esc f']
      simp

/-- A field the writer leaves unquoted contains none of the four special
characters. -/
theorem noQuotes_plain {f : List Char} (h : fieldNeedsQuotes f = false) :
    ∀ c ∈ f, c ≠ ',' ∧ c ≠ '"' ∧ c ≠ '\r' ∧ c ≠ '\n' := by
  intro c hc
  by_cases hnil : f = []
  · subst hnil
    simp at hc
  by_cases hpg : f = ['\\', '.']
  · rw [fieldNeedsQuotes, if_neg hnil, if_pos hpg] at h
    exact absurd h (by simp)
  rw [fieldNeedsQuotes, if_neg hnil, if_neg hpg] at h
  by_cases hany : f.any (fun c => c = ',' || c = '"' || c = '\r' || c = '\n') = true
  · rw [if_pos hany] at h
    exact absurd h (by simp)
  · have hall := List.any_eq_false.mp (Bool.not_eq_true _ ▸ hany : _ = false)
    have := hall c hc
    simp at this
    tauto

theorem csvUnquoted_run : ∀ (f fld : List Char) (rec : List (List Char))
    (acc : List (List (List Char))) (r : List Char),
    (∀ c ∈ f, c ≠ ',' ∧ c ≠ '"' ∧ c ≠ '\r' ∧ c ≠ '\n') →
    csvUnquoted fld rec acc (f ++ r) = csvUnquoted (f.reverse ++ fld) rec acc r
  | [], fld, rec, acc, r, _ => by simp
  | c :: f', fld, rec, acc, r, hp => by
    have hc := hp c (List.mem_cons_self c f')
    have hf' : ∀ d ∈ f', d ≠ ',' ∧ d ≠ '"' ∧ d ≠ '\r' ∧ d ≠ '\n' :=
      fun d hd => hp d (List.mem_cons_of_mem _ hd)
    rw [List.cons_append, csvUnquoted_plain hc.2.1 hc.1 hc.2.2.2 hc.2.2.1,
      csvUnquoted_run f' _ _ _ _ hf']
    simp

theorem csvStart_field_comma (q : List Char) (rec : List (List Char))
    (acc : List (List (List Char))) (r : List Char) :
    csvStart rec acc (encodeCSVField q ++ ',' :: r) = csvStart (q :: rec) acc r := by
  by_cases hq : fieldNeedsQuotes q = true
  · have e : encodeCSVField q ++ ',' :: r =
        '"' :: (escQuoted q ++ ('"' :: (',' :: r))) := by
      simp [encodeCSVField, hq]
    rw [e, csvStart_quote, csvQuoted_esc, csvQuoted_close (by simp)]
    simp only [List.append_nil, List.reverse_reverse]
    rw [csvFieldDone_comma]
  · have hq' : fieldNeedsQuotes q = false := by simpa using hq
    have hplain := noQuotes_plain hq'
    cases q with
    | nil =>
      have e : encodeCSVField [] ++ ',' :: r = ',' :: r := by
        simp [encodeCSVField, fieldNeedsQuotes]
      rw [e, csvStart_comma]
    | cons c q' =>
      have hc := hplain c (List.mem_cons_self c q')
      have hq'' : ∀ d ∈ q', d ≠ ',' ∧ d ≠ '"' ∧ d ≠ '\r' ∧ d ≠ '\n' :=
        fun d hd => hplain d (List.mem_cons_of_mem _ hd)
      have e : encodeCSVField (c :: q') ++ ',' :: r = c :: (q' ++ ',' :: r) := by
        simp [encodeCSVField, hq']
      rw [e, csvStart_plain hc.2.1 hc.1 hc.2.2.2 hc.2.2.1,
        csvUnquoted_run q' _ _ _ _ hq'', csvUnquoted_comma]
      simp

theorem csvStart_field_lf (a : List Char) (rec : List (List Char))
    (acc : List (List (List Char))) (r : List Char) :
    csvStart rec acc (encodeCSVField a ++ '\n' :: r) =
      csvStart [] ((a :: rec).reverse :: acc) r := by
  by_cases ha : fieldNeedsQuotes a = true
  · have e : encodeCSVField a ++ '\n' :: r =
        '"' :: (escQuoted a ++ ('"' :: ('\n' :: r))) := by
      simp [encodeCSVField, ha]
    rw [e, csvStart_quote, csvQuoted_esc, csvQuoted_close (by simp)]
    simp only [List.append_nil, List.reverse_reverse]
    rw [csvFieldDone_lf]
  · have ha' : fieldNeedsQuotes a = false := by simpa using ha
    have hplain := noQuotes_plain ha'
    cases a with
    | nil =>
      have e : encodeCSVField [] ++ '\n' :: r = '\n' :: r := by
        simp [encodeCSVField, fieldNeedsQuotes]
      rw [e, csvStart_lf]
    | cons c a' =>
      have hc := hplain c (List.mem_cons_self c a')
      have ha'' : ∀ d ∈ a', d ≠ ',' ∧ d ≠ '"' ∧ d ≠ '\r' ∧ d ≠ '\n' :=
        fun d hd => hplain d (List.mem_cons_of_mem _ hd)
      have e : encodeCSVField (c :: a') ++ '\n' :: r = c :: (a' ++ '\n' :: r) := by
        simp [encodeCSVField, ha']
      rw [e, csvStart_plain hc.2.1 hc.1 hc.2.2.2 hc.2.2.1,
        csvUnquoted_run a' _ _ _ _ ha'', csvUnquoted_lf]
      simp

theorem encodeCSVRecord_pair (q a : List Char) :
    encodeCSVRecord [q, a] =
      encodeCSVField q ++ (',' :: (encodeCSVField a ++ ['\n'])) := by
  simp [encodeCSVRecord, List.intercalate, List.intersperse]

theorem csvStart_record (q a : List Char) (acc : List (List (List Char)))
    (r : List Char) :
    csvStart [] acc (encodeCSVRecord [q, a] ++ r) = csvStart [] ([q, a] :: acc) r := by
  rw [encodeCSVRecord_pair]
  have e : (encodeCSVField q ++ (',' :: (encodeCSVField a ++ ['\n']))) ++ r =
      encodeCSVField q ++ ',' :: (encodeCSVField a ++ '\n' :: r) := by
    simp
  rw [e, csvStart_field_comma, csvStart_field_lf]
  simp

theorem csvStart_rows : ∀ (cards : List Flashcard) (acc : List (List (List Char))),
    csvStart [] acc
      ((cards.map fun fc => encodeCSVRecord [fc.question, fc.answer]).flatten) =
      some (acc.reverse ++ cards.map fun fc => [fc.question, fc.answer])
  | [], acc => by simp [csvStart_nil]
  | fc :: cards', acc => by
    rw [List.map_cons, List.flatten_cons, csvStart_record, csvStart_rows cards']
    simp

/-- Claim C5: exporting any flashcard sequence with
`exportFlashcardsToCSVFile` and re-parsing the written file as RFC-4180
CSV yields the header row `Question,Answer` followed by exactly one data
row per card, equal to the cards in sequence order, with the standard
quoting the writer applies to fields containing commas, quotes or
newlines. -/
theorem csv_export_roundTrip (cards : List Flashcard) (filename : List Char) :
    csvParse (exportFlashcardsToCSVFile cards filename).content =
      some (csvHeader :: cards.map fun fc => [fc.question, fc.answer]) := by
  show csvParse (csvFileContent cards) = _
  rw [csvParse, csvFileContent]
  have e : csvHeader =
      [['Q', 'u', 'e', 's', 't', 'i', 'o', 'n'], ['A', 'n', 's', 'w', 'e', 'r']] := rfl
  rw [e, csvStart_record, csvStart_rows]
  simp [e]

end Url2anki
